import Mathlib

/-!
Verification of `src/json_comparator.py` (class `JsonComparator`).

The Python values handled by the comparator (parsed JSON data, plus the
`object()` placeholder that `zip_longest` inserts) are embedded as the
nested inductive type `JVal`.  The recursive Python functions are embedded
as mutual structural recursions over `JVal` and the lists nested in it;
the loop bodies of the source become the auxiliary functions of the mutual
blocks.  Python exceptions are modelled by `Except PyErr`.
-/

/-- Embedding of the Python values the comparator manipulates: JSON objects,
arrays, strings, integers (`num`; floats are not modelled), booleans, `None`,
and the fresh `object()` sentinel used by `compare_json` as the
`zip_longest` fill value (`absent`). -/
inductive JVal where
  | obj : List (String × JVal) → JVal
  | arr : List JVal → JVal
  | str : String → JVal
  | num : Int → JVal
  | bool : Bool → JVal
  | null : JVal
  | absent : JVal

/-- Python exceptions that can escape the embedded code paths.
`keyError k` is `KeyError(k)` raised by `json_data_2[key]`; `typeError`
covers the `TypeError`s raised when indexing, iterating or comparing
unsuitable values. -/
inductive PyErr where
  | keyError : String → PyErr
  | typeError : String → PyErr
deriving DecidableEq

/-- The text `str(e)` of an exception, as `get_comparison`'s `except` clause
returns it.  `str(KeyError(k))` is the `repr` of the key, i.e. the key in
quotes. -/
def PyErr.str : PyErr → String
  | .keyError k => "'" ++ k ++ "'"
  | .typeError m => m

/-- A Python value returned by `fuzzy_match`: an `int` ratio on the normal
path, or the string `str(e)` produced by its `except` clause. -/
inductive PyVal where
  | int : Nat → PyVal
  | pstr : String → PyVal
deriving DecidableEq

/-- Result of `get_comparison`: either the tuple
`(similarity string, differences list)` or a bare message string (degenerate
case, or `str(e)` of a caught exception). -/
inductive CompResult where
  | pair : String → List String → CompResult
  | msg : String → CompResult
deriving DecidableEq

/-! ### sizeOf facts for `JVal` (used as the measure of the strong
inductions in the proofs below) -/

theorem JVal.sizeOf_pos (a : JVal) : 0 < sizeOf a := by
  cases a <;> simp

theorem sizeOf_lt_of_mem_kvs {k : String} {v : JVal} {kvs : List (String × JVal)}
    (h : (k, v) ∈ kvs) : sizeOf v < sizeOf (JVal.obj kvs) := by
  have h1 := List.sizeOf_lt_of_mem h
  simp at h1 ⊢
  omega

theorem sizeOf_lt_of_mem_arr {v : JVal} {l : List JVal} (h : v ∈ l) :
    sizeOf v < sizeOf (JVal.arr l) := by
  have h1 := List.sizeOf_lt_of_mem h
  simp
  omega

/-! ### The approximate scalar matcher (`fuzzy_match`)

The repository calls `fuzz.ratio` from the external `fuzzywuzzy` library,
which is not part of the repository's source.  Following the spec
("compute a normalized edit-distance-based similarity ratio, e.g.
Levenshtein-based ratio: `100 * (1 - distance / max(len(a), len(b)))`"),
the ratio is modelled from the spec as that Levenshtein formula, taking the
value 100 on two empty strings. -/

/-- Levenshtein distance between two character lists, computed with a fuel
argument so that the recursion is structural (the fuel
`xs.length + ys.length` is always sufficient, since every recursive call
drops at least one character). -/
def levFuel : Nat → List Char → List Char → Nat
  | _, [], ys => ys.length
  | _, x :: xs, [] => (x :: xs).length
  | 0, _, _ => 0
  | f + 1, x :: xs, y :: ys =>
    if x = y then levFuel f xs ys
    else 1 + min (levFuel f xs ys) (min (levFuel f (x :: xs) ys) (levFuel f xs (y :: ys)))

/-- Levenshtein distance between two character lists. -/
def levChars (xs ys : List Char) : Nat := levFuel (xs.length + ys.length) xs ys

/-- Modelled from the spec: the similarity score of the external
`fuzz.ratio`, as the spec's normalized Levenshtein ratio
`100 * (1 - distance / max(len a, len b))` over the already-lowercased
strings, with score 100 when both strings are empty. -/
def scoreStrings (s1 s2 : String) : Nat :=
  if max s1.length s2.length = 0 then 100
  else (100 * (max s1.length s2.length - levChars s1.data s2.data)) / max s1.length s2.length

/-- ASCII model of Python's `str.lower()` on one character. -/
def chLower (c : Char) : Char :=
  if 'A' ≤ c ∧ c ≤ 'Z' then Char.ofNat (c.toNat + 32) else c

/-- ASCII model of Python's `str.lower()`. -/
def strLower (s : String) : String := ⟨s.data.map chLower⟩

/-! ### Python `str()` rendering of values -/

mutual
/-- Python `repr()` of a value: strings quoted, containers rendered with
Python's bracket/brace syntax, `True`/`False`/`None` spelled as in Python.
The unknown memory address in `repr(object())` is elided. -/
def pyRepr : JVal → String
  | .obj kvs => "\x7b" ++ pyReprKvs kvs ++ "\x7d"
  | .arr l => "[" ++ pyReprArr l ++ "]"
  | .str s => "'" ++ s ++ "'"
  | .num n => toString n
  | .bool true => "True"
  | .bool false => "False"
  | .null => "None"
  | .absent => "<object object>"
termination_by structural v => v

/-- Comma-joined `repr()` of a dict's entries. -/
def pyReprKvs : List (String × JVal) → String
  | [] => ""
  | [(k, v)] => "'" ++ k ++ "': " ++ pyRepr v
  | (k, v) :: kv2 :: rest => "'" ++ k ++ "': " ++ pyRepr v ++ ", " ++ pyReprKvs (kv2 :: rest)
termination_by structural kvs => kvs

/-- Comma-joined `repr()` of a list's elements. -/
def pyReprArr : List JVal → String
  | [] => ""
  | [v] => pyRepr v
  | v :: v2 :: rest => pyRepr v ++ ", " ++ pyReprArr (v2 :: rest)
termination_by structural l => l
end

/-- Python `str()` of a value: like `repr()` except that a string is
rendered as itself, without quotes. -/
def pyStr (v : JVal) : String :=
  match v with
  | .str s => s
  | v => pyRepr v

/-! ### `fuzzy_match` -/

/-- The body of `fuzzy_match` with the fallible external ratio computation
abstracted as `f`: both operands are rendered with `str(...)`, lowercased,
and `f` is applied; an exception from `f` is caught by the `except` clause
and its text is returned in place of the ratio (`return str(e)`). -/
def fuzzyMatchWith (f : String → String → Except String Nat) (v1 v2 : JVal) : PyVal :=
  match f (strLower (pyStr v1)) (strLower (pyStr v2)) with
  | .ok n => .int n
  | .error e => .pstr e

/-- `JsonComparator.fuzzy_match`: the concrete matcher, with the external
ratio computation instantiated by the (total) spec-modelled score. -/
def fuzzy_match (v1 v2 : JVal) : PyVal :=
  fuzzyMatchWith (fun s1 s2 => .ok (scoreStrings s1 s2)) v1 v2

/-- The numeric score `fuzzy_match` computes on the normal path. -/
def fuzzyScore (v1 v2 : JVal) : Nat :=
  scoreStrings (strLower (pyStr v1)) (strLower (pyStr v2))

theorem fuzzy_match_eq_int (v1 v2 : JVal) : fuzzy_match v1 v2 = .int (fuzzyScore v1 v2) := rfl

/-! ### The tree comparator (`compare_json`) -/

/-- `if key_path else` path extension of `compare_json`'s dict loop:
`f"{key_path}.{key}" if key_path else key`. -/
def extendPath (path k : String) : String :=
  if path = "" then k else path ++ "." ++ k

/-- Bracketed-index path extension of `compare_json`'s list loop:
`f"{key_path}[{index}]"`. -/
def pathIdx (path : String) (i : Nat) : String :=
  path ++ "[" ++ toString i ++ "]"

/-- First-match association-list lookup (the behaviour of a Python dict,
whose keys are unique). -/
def lookupKvs : List (String × JVal) → String → Option JVal
  | [], _ => none
  | (k1, v) :: rest, k => if k1 = k then some v else lookupKvs rest k

/-- Python subscription `json_data_2[key]` with a string key: looks the key
up when `json_data_2` is a dict (raising `KeyError` on a miss), and raises
`TypeError` otherwise. -/
def dictLookup (b : JVal) (k : String) : Except PyErr JVal :=
  match b with
  | .obj kvs =>
    match lookupKvs kvs k with
    | some v => .ok v
    | none => .error (.keyError k)
  | .arr _ => .error (.typeError "list indices must be integers or slices, not str")
  | .str _ => .error (.typeError "string indices must be integers")
  | _ => .error (.typeError "object is not subscriptable")

/-- The sequence of values Python iterates when `zip_longest` consumes
`json_data_2`: a list yields its elements, a dict its keys, a string its
characters, anything else raises `TypeError`. -/
def elemsOf : JVal → Except PyErr (List JVal)
  | .arr l => .ok l
  | .obj kvs => .ok (kvs.map (fun kv => .str kv.1))
  | .str s => .ok (s.data.map (fun c => .str (String.singleton c)))
  | _ => .error (.typeError "zip_longest argument must support iteration")

/-- The scalar (else-) branch of `compare_json`: run `fuzzy_match`; a
numeric ratio below the threshold appends one difference string and returns
`(1, differences)`, otherwise `(0, [])` is returned.  If `fuzzy_match` had
returned a string (its swallowed-exception path, provably dead here),
`ratio < self.threshold` would raise `TypeError`. -/
def scalarCase (t : ℚ) (a b : JVal) (path : String) : Except PyErr (Nat × List String) :=
  match fuzzy_match a b with
  | .int n =>
    if (n : ℚ) < t then
      .ok (1, ["Value difference at " ++ path ++ ": '" ++ pyStr a ++ "' vs '" ++ pyStr b ++ "'"])
    else .ok (0, [])
  | .pstr _ => .error (.typeError "'<' not supported between instances of 'str' and 'int'")

/-- The tail of `compare_json`'s list loop once the first list is
exhausted: each remaining position pairs the `object()` fill value against
an element of the second list, which is exactly the scalar branch of
`compare_json` (the fill value is neither a dict nor a list). -/
def tailAbsent (t : ℚ) : List JVal → String → Nat → Except PyErr (Nat × List String)
  | [], _, _ => .ok (0, [])
  | y :: ys, path, idx =>
    match scalarCase t .absent y (pathIdx path idx) with
    | .error e => .error e
    | .ok (c1, d1) =>
      match tailAbsent t ys path (idx + 1) with
      | .error e => .error e
      | .ok (c2, d2) => .ok (c1 + c2, d1 ++ d2)

mutual
/-- `JsonComparator.compare_json`.  A dict dispatches to the key loop
(`goObj`), a list to the `zip_longest` loop (`goArr`, after materialising
the iterable of the second operand), and anything else to the scalar
branch. -/
def compare_json (t : ℚ) : JVal → JVal → String → Except PyErr (Nat × List String)
  | .obj kvs, b, path => goObj t kvs b path
  | .arr l, b, path =>
    match elemsOf b with
    | .error e => .error e
    | .ok bl => goArr t l bl path 0
  | .str s, b, path => scalarCase t (.str s) b path
  | .num n, b, path => scalarCase t (.num n) b path
  | .bool c, b, path => scalarCase t (.bool c) b path
  | .null, b, path => scalarCase t .null b path
  | .absent, b, path => scalarCase t .absent b path
termination_by structural a => a

/-- The `for key in all_keys` loop of `compare_json`: for each key of the
first dict, look the key up in the second operand (exceptions propagate),
recurse, and accumulate `difference_count += new_count;
differences.extend(new_differences)`. -/
def goObj (t : ℚ) : List (String × JVal) → JVal → String → Except PyErr (Nat × List String)
  | [], _, _ => .ok (0, [])
  | (k, v) :: rest, b, path =>
    match dictLookup b k with
    | .error e => .error e
    | .ok bv =>
      match compare_json t v bv (extendPath path k) with
      | .error e => .error e
      | .ok (c1, d1) =>
        match goObj t rest b path with
        | .error e => .error e
        | .ok (c2, d2) => .ok (c1 + c2, d1 ++ d2)
termination_by structural kvs => kvs

/-- The `for index, items in enumerate(zip_longest(...))` loop of
`compare_json`, peeling both sequences positionally: while both lists have
elements they are paired; once the second is exhausted its side is the
`object()` fill value; once the first is exhausted the remaining pairs are
(fill value, element), handled by `tailAbsent` (each such pair is a scalar
comparison, the fill value being neither dict nor list). -/
def goArr (t : ℚ) : List JVal → List JVal → String → Nat → Except PyErr (Nat × List String)
  | [], bl, path, idx => tailAbsent t bl path idx
  | x :: xs, [], path, idx =>
    match compare_json t x .absent (pathIdx path idx) with
    | .error e => .error e
    | .ok (c1, d1) =>
      match goArr t xs [] path (idx + 1) with
      | .error e => .error e
      | .ok (c2, d2) => .ok (c1 + c2, d1 ++ d2)
  | x :: xs, y :: ys, path, idx =>
    match compare_json t x y (pathIdx path idx) with
    | .error e => .error e
    | .ok (c1, d1) =>
      match goArr t xs ys path (idx + 1) with
      | .error e => .error e
      | .ok (c2, d2) => .ok (c1 + c2, d1 ++ d2)
termination_by structural l => l
end

/-! ### `itertools.zip_longest` -/

/-- `itertools.zip_longest(l, bl, fillvalue=object())`: positional pairing
up to the longer length, the `object()` sentinel (`absent`) standing in for
the exhausted side. -/
def zipLongest : List JVal → List JVal → List (JVal × JVal)
  | [], ys => ys.map (fun y => (.absent, y))
  | x :: xs, [] => (x, .absent) :: zipLongest xs []
  | x :: xs, y :: ys => (x, y) :: zipLongest xs ys

/-! ### `count_values` -/

/-- The `counts` dictionary of `count_values`. -/
structure Counts where
  strings : Nat
  numbers : Nat
  booleans : Nat
  array_members : Nat
  nulls : Nat
deriving DecidableEq

def Counts.zero : Counts := ⟨0, 0, 0, 0, 0⟩

def Counts.add (c1 c2 : Counts) : Counts :=
  ⟨c1.strings + c2.strings, c1.numbers + c2.numbers, c1.booleans + c2.booleans,
    c1.array_members + c2.array_members, c1.nulls + c2.nulls⟩

mutual
/-- The `recurse` helper of `count_values`, expressed as a pure sum of the
increments it performs: dicts recurse into their values, lists add their
length to `array_members` and recurse into every element, and each
string/boolean/number/`None` leaf bumps its counter (`isinstance` checks
`bool` before `int`; the `object()` sentinel matches no branch). -/
def tallyVal : JVal → Counts
  | .obj kvs => tallyKvs kvs
  | .arr l => Counts.add ⟨0, 0, 0, l.length, 0⟩ (tallyArr l)
  | .str _ => ⟨1, 0, 0, 0, 0⟩
  | .num _ => ⟨0, 1, 0, 0, 0⟩
  | .bool _ => ⟨0, 0, 1, 0, 0⟩
  | .null => ⟨0, 0, 0, 0, 1⟩
  | .absent => Counts.zero
termination_by structural v => v

def tallyKvs : List (String × JVal) → Counts
  | [] => Counts.zero
  | (_, v) :: rest => Counts.add (tallyVal v) (tallyKvs rest)
termination_by structural kvs => kvs

def tallyArr : List JVal → Counts
  | [] => Counts.zero
  | v :: rest => Counts.add (tallyVal v) (tallyArr rest)
termination_by structural l => l
end

/-- `JsonComparator.count_values`: the returned total
`strings + numbers + booleans + nulls` (`array_members` is excluded). -/
def count_values (v : JVal) : Nat :=
  let c := tallyVal v
  c.strings + c.numbers + c.booleans + c.nulls

/-! ### `get_comparison` -/

/-- Fixed-point rendering of a quantity of hundredths as a 2-decimal
string (`123` becomes `"1.23"`). -/
def renderCents (c : Int) : String :=
  (if c < 0 then "-" else "") ++ toString (c.natAbs / 100) ++ "." ++
    (if c.natAbs % 100 < 10 then "0" else "") ++ toString (c.natAbs % 100)

/-- The 2-decimal formatting `f"{q:.2f}"` of a rational, rounding to the
nearest hundredth (ties rounded up; the bit-level tie behaviour of the
source's binary floats is not modelled). -/
def format2f (q : ℚ) : String := renderCents ⌊q * 100 + 1 / 2⌋

/-- The similarity line computed by `get_comparison` when `total > 0`,
written with integer arithmetic:
`round(matching / total * 100 * 100)` hundredths, rendered to 2 decimals
(`f"{similarity_ratio * 100:.2f}% similar"`).  `matching` may be negative
(nothing in the source prevents `difference_count > total_values`). -/
def similarityLine (matching : Int) (total : Nat) : String :=
  renderCents ((2 * (matching * 10000) + total) / (2 * total)) ++ "% similar"

/-- `JsonComparator.get_comparison`: tally the first document, compare the
two documents, and either format the similarity percentage with the
difference list, return the degenerate no-comparable-values message, or —
for any exception raised inside the `try` — return `str(e)`. -/
def get_comparison (t : ℚ) (a b : JVal) : CompResult :=
  let total := count_values a
  match compare_json t a b "" with
  | .error e => .msg e.str
  | .ok (d, diffs) =>
    if 0 < total then
      .pair (similarityLine ((total : Int) - (d : Int)) total) diffs
    else
      .msg "The files do not contain keys to compare."

/-- The integer-arithmetic similarity line agrees with the 2-decimal
formatting of the exact rational `matching / total * 100`. -/
theorem similarityLine_eq_format2f (m : Int) (total : Nat) (h : 0 < total) :
    similarityLine m total = format2f ((m : ℚ) / (total : ℚ) * 100) ++ "% similar" := by
  unfold similarityLine format2f
  congr 2
  have h2 : (m : ℚ) / (total : ℚ) * 100 * 100 + 1 / 2 =
      (((2 * (m * 10000) + total : Int) : ℚ)) / (((2 * total : Nat) : ℚ)) := by
    have htQ : ((total : ℚ)) ≠ 0 := by positivity
    push_cast
    field_simp
    ring
  rw [h2, Rat.floor_intCast_div_natCast]
  push_cast
  ring_nf

/-! ### Predicates used to state the claims -/

/-- A value that takes neither the dict branch nor the list branch of
`compare_json`: the else-branch operands. -/
def isScalar : JVal → Bool
  | .obj _ => false
  | .arr _ => false
  | _ => true

/-- No entry of `rest` has the key `k` (Python dicts never repeat a key). -/
def keyFresh (k : String) : List (String × JVal) → Bool
  | [] => true
  | (k1, _) :: rest => (k1 != k) && keyFresh k rest

mutual
/-- The association lists of the value represent Python dicts: every key
occurs at most once, recursively. -/
def wfDoc : JVal → Bool
  | .obj kvs => wfKvs kvs
  | .arr l => wfArr l
  | _ => true
termination_by structural v => v

def wfKvs : List (String × JVal) → Bool
  | [] => true
  | (k, v) :: rest => keyFresh k rest && wfDoc v && wfKvs rest
termination_by structural kvs => kvs

def wfArr : List JVal → Bool
  | [] => true
  | v :: rest => wfDoc v && wfArr rest
termination_by structural l => l
end

/-- The comparison of `a` against `b` never puts the `object()` fill value
on the first side: `a` contains no `absent`, and along the traversal no
list reached in `b` is longer than its counterpart in `a` (positions where
the second side is missing or faulting are unconstrained, since they
either stay bounded or abort the comparison). -/
inductive Covers : JVal → JVal → Prop where
  | str : ∀ (s : String) (b : JVal), Covers (.str s) b
  | num : ∀ (n : Int) (b : JVal), Covers (.num n) b
  | bool : ∀ (c : Bool) (b : JVal), Covers (.bool c) b
  | null : ∀ b : JVal, Covers .null b
  | obj : ∀ (kvs : List (String × JVal)) (b : JVal),
      (∀ k v bv, (k, v) ∈ kvs → dictLookup b k = .ok bv → Covers v bv) →
      Covers (.obj kvs) b
  | arrFault : ∀ (l : List JVal) (b : JVal) (e : PyErr),
      elemsOf b = .error e → Covers (.arr l) b
  | arr : ∀ (l : List JVal) (b : JVal) (bl : List JVal),
      elemsOf b = .ok bl → bl.length ≤ l.length →
      (∀ x y, (x, y) ∈ zipLongest l bl → Covers x y) →
      Covers (.arr l) b

/-- The `zip_longest` loop of `compare_json` expressed over an explicit
list of already-formed pairs, recursing through `compare_json` itself. -/
def goPairs (t : ℚ) : List (JVal × JVal) → String → Nat → Except PyErr (Nat × List String)
  | [], _, _ => .ok (0, [])
  | (x, y) :: rest, path, idx =>
    match compare_json t x y (pathIdx path idx) with
    | .error e => .error e
    | .ok (c1, d1) =>
      match goPairs t rest path (idx + 1) with
      | .error e => .error e
      | .ok (c2, d2) => .ok (c1 + c2, d1 ++ d2)

/-! ### Basic lemmas -/

theorem sizeOf_absent_lt_arr (l : List JVal) :
    sizeOf JVal.absent < sizeOf (JVal.arr l) := by
  cases l <;> simp

theorem levFuel_self_eq_zero : ∀ (f : Nat) (xs : List Char), xs.length ≤ f →
    levFuel f xs xs = 0 := by
  intro f
  induction f with
  | zero =>
    intro xs h
    match xs with
    | [] => rfl
  | succ f ih =>
    intro xs h
    match xs with
    | [] => rfl
    | x :: xs' =>
      simp only [levFuel, if_pos rfl]
      exact ih xs' (by simpa using Nat.le_of_succ_le_succ h)

theorem levChars_self (xs : List Char) : levChars xs xs = 0 :=
  levFuel_self_eq_zero _ _ (by omega)

theorem scoreStrings_self (s : String) : scoreStrings s s = 100 := by
  unfold scoreStrings
  simp only [Nat.max_self, levChars_self, Nat.sub_zero]
  by_cases h : s.length = 0
  · simp [h]
  · rw [if_neg h, Nat.mul_div_cancel 100 (Nat.pos_of_ne_zero h)]

theorem fuzzyScore_self (a : JVal) : fuzzyScore a a = 100 := scoreStrings_self _

/-! ### `zipLongest` lemmas -/

theorem zipLongest_self (l : List JVal) : zipLongest l l = l.map (fun x => (x, x)) := by
  induction l with
  | nil => rfl
  | cons x xs ih => simp [zipLongest, ih]

theorem map_eq_range_map_getD {α : Type} (g : JVal → α) (d : JVal) :
    ∀ ys : List JVal, ys.map g = (List.range ys.length).map (fun i => g (ys.getD i d)) := by
  intro ys
  induction ys with
  | nil => rfl
  | cons y ys ih =>
    simp only [List.map_cons, List.length_cons, List.range_succ_eq_map, List.getD_cons_zero,
      List.map_map]
    congr 1

theorem zipLongest_eq_range_map : ∀ l bl : List JVal,
    zipLongest l bl = (List.range (max l.length bl.length)).map
      (fun i => (l.getD i .absent, bl.getD i .absent)) := by
  intro l
  induction l with
  | nil =>
    intro bl
    simp only [zipLongest, List.length_nil, Nat.zero_max, Nat.max_eq_right (Nat.zero_le _)]
    rw [map_eq_range_map_getD (fun y => ((.absent : JVal), y)) .absent bl]
    apply List.map_congr_left
    intro i _
    simp
  | cons x xs ih =>
    intro bl
    match bl with
    | [] =>
      simp only [zipLongest, List.length_cons, List.length_nil]
      rw [Nat.max_eq_left (Nat.zero_le _), List.range_succ_eq_map]
      simp only [List.map_cons, List.getD_cons_zero, List.map_map]
      congr 1
      · rw [ih []]
        simp only [List.length_nil, Nat.max_eq_left (Nat.zero_le _)]
        apply List.map_congr_left
        intro i _
        simp [List.getD_cons_succ]
    | y :: ys =>
      simp only [zipLongest, List.length_cons, Nat.succ_max_succ, List.range_succ_eq_map]
      simp only [List.map_cons, List.getD_cons_zero, List.map_map]
      congr 1
      · rw [ih ys]
        apply List.map_congr_left
        intro i _
        simp [List.getD_cons_succ]

theorem zipLongest_fst_mem : ∀ (l bl : List JVal) (x y : JVal),
    (x, y) ∈ zipLongest l bl → x ∈ l ∨ x = .absent := by
  intro l
  induction l with
  | nil =>
    intro bl x y h
    simp only [zipLongest, List.mem_map] at h
    obtain ⟨z, _, hz⟩ := h
    right
    rw [Prod.ext_iff] at hz
    exact hz.1.symm
  | cons a xs ih =>
    intro bl x y h
    match bl with
    | [] =>
      simp only [zipLongest, List.mem_cons] at h
      rcases h with h | h
      · left
        injection h with h1 h2
        subst h1
        exact List.mem_cons_self _ _
      · rcases ih [] x y h with h2 | h2
        · exact Or.inl (List.mem_cons_of_mem _ h2)
        · exact Or.inr h2
    | b :: ys =>
      simp only [zipLongest, List.mem_cons] at h
      rcases h with h | h
      · left
        injection h with h1 h2
        subst h1
        exact List.mem_cons_self _ _
      · rcases ih ys x y h with h2 | h2
        · exact Or.inl (List.mem_cons_of_mem _ h2)
        · exact Or.inr h2

theorem sizeOf_fst_lt_of_mem_zipLongest {l bl : List JVal} {x y : JVal}
    (h : (x, y) ∈ zipLongest l bl) : sizeOf x < sizeOf (JVal.arr l) := by
  rcases zipLongest_fst_mem l bl x y h with h2 | h2
  · exact sizeOf_lt_of_mem_arr h2
  · rw [h2]
    exact sizeOf_absent_lt_arr l

theorem zipLongest_fst_of_le : ∀ (l bl : List JVal), bl.length ≤ l.length →
    (zipLongest l bl).map Prod.fst = l := by
  intro l
  induction l with
  | nil =>
    intro bl h
    rw [List.length_nil, Nat.le_zero] at h
    rw [List.length_eq_zero] at h
    subst h
    rfl
  | cons x xs ih =>
    intro bl h
    match bl with
    | [] => simp [zipLongest, ih [] (by simp)]
    | y :: ys => simp [zipLongest, ih ys (by simpa using h)]

/-! ### The `zip_longest` loop as a fold over explicit pairs -/

theorem tailAbsent_eq_goPairs (t : ℚ) : ∀ (bl : List JVal) (path : String) (idx : Nat),
    tailAbsent t bl path idx = goPairs t (bl.map (fun y => (.absent, y))) path idx := by
  intro bl
  induction bl with
  | nil => intro path idx; rfl
  | cons y ys ih =>
    intro path idx
    show tailAbsent t (y :: ys) path idx = goPairs t ((.absent, y) :: ys.map _) path idx
    rw [tailAbsent, goPairs]
    rw [ih]
    rfl

theorem goArr_eq_goPairs (t : ℚ) : ∀ (l bl : List JVal) (path : String) (idx : Nat),
    goArr t l bl path idx = goPairs t (zipLongest l bl) path idx := by
  intro l
  induction l with
  | nil =>
    intro bl path idx
    rw [goArr, zipLongest]
    exact tailAbsent_eq_goPairs t bl path idx
  | cons x xs ih =>
    intro bl path idx
    match bl with
    | [] =>
      rw [goArr, zipLongest, goPairs, ih]
    | y :: ys =>
      rw [goArr, zipLongest, goPairs, ih]

/-! ### `count_values` arithmetic -/

theorem count_values_obj_nil : count_values (.obj []) = 0 := rfl

theorem count_values_arr_nil : count_values (.arr []) = 0 := rfl

theorem count_values_obj_cons (k : String) (v : JVal) (rest : List (String × JVal)) :
    count_values (.obj ((k, v) :: rest)) = count_values v + count_values (.obj rest) := by
  show (Counts.add (tallyVal v) (tallyKvs rest)).strings + _ + _ + _ = _
  simp only [count_values, tallyVal, tallyKvs, Counts.add]
  omega

theorem count_values_arr_cons (v : JVal) (rest : List JVal) :
    count_values (.arr (v :: rest)) = count_values v + count_values (.arr rest) := by
  simp only [count_values, tallyVal, tallyArr, Counts.add]
  omega

theorem count_values_obj (kvs : List (String × JVal)) :
    count_values (.obj kvs) = (kvs.map (fun kv => count_values kv.2)).sum := by
  induction kvs with
  | nil => rfl
  | cons kv rest ih =>
    match kv with
    | (k, v) => rw [count_values_obj_cons, List.map_cons, List.sum_cons, ih]

theorem count_values_arr (l : List JVal) :
    count_values (.arr l) = (l.map count_values).sum := by
  induction l with
  | nil => rfl
  | cons v rest ih => rw [count_values_arr_cons, List.map_cons, List.sum_cons, ih]

theorem count_values_scalar_le_one (a : JVal) (h : isScalar a = true) :
    count_values a ≤ 1 := by
  cases a <;> simp_all [count_values, tallyVal, Counts.zero, isScalar]

/-! ### Dict lookup under well-formedness -/

theorem keyFresh_ne (k : String) : ∀ (rest : List (String × JVal)),
    keyFresh k rest = true → ∀ k2 v2, (k2, v2) ∈ rest → k2 ≠ k := by
  intro rest
  induction rest with
  | nil => intro _ k2 v2 h2; cases h2
  | cons kv tail ih =>
    intro h k2 v2 h2
    match kv with
    | (k1, v1) =>
      rw [keyFresh, Bool.and_eq_true] at h
      rcases List.mem_cons.mp h2 with h3 | h3
      · injection h3 with h4 h5
        subst h4
        simpa using h.1
      · exact ih h.2 k2 v2 h3

theorem lookupKvs_of_wf : ∀ (kvs : List (String × JVal)) (k : String) (v : JVal),
    wfKvs kvs = true → (k, v) ∈ kvs → lookupKvs kvs k = some v := by
  intro kvs
  induction kvs with
  | nil => intro k v _ h2; cases h2
  | cons kv rest ih =>
    intro k v h h2
    match kv with
    | (k1, v1) =>
      rw [wfKvs, Bool.and_eq_true, Bool.and_eq_true] at h
      rcases List.mem_cons.mp h2 with h3 | h3
      · injection h3 with h4 h5
        subst h4; subst h5
        simp [lookupKvs]
      · have hne : k ≠ k1 := fun he => (keyFresh_ne k1 rest h.1.1 k v h3) (he ▸ rfl)
        rw [lookupKvs, if_neg (fun he => hne he.symm)]
        exact ih k v h.2 h3

theorem wfKvs_mem_wfDoc : ∀ (kvs : List (String × JVal)) (k : String) (v : JVal),
    wfKvs kvs = true → (k, v) ∈ kvs → wfDoc v = true := by
  intro kvs
  induction kvs with
  | nil => intro k v _ h2; cases h2
  | cons kv rest ih =>
    intro k v h h2
    match kv with
    | (k1, v1) =>
      rw [wfKvs, Bool.and_eq_true, Bool.and_eq_true] at h
      rcases List.mem_cons.mp h2 with h3 | h3
      · injection h3 with h4 h5
        subst h5
        exact h.1.2
      · exact ih k v h.2 h3

theorem wfArr_mem_wfDoc : ∀ (l : List JVal) (v : JVal),
    wfArr l = true → v ∈ l → wfDoc v = true := by
  intro l
  induction l with
  | nil => intro v _ h2; cases h2
  | cons x rest ih =>
    intro v h h2
    rw [wfArr, Bool.and_eq_true] at h
    rcases List.mem_cons.mp h2 with h3 | h3
    · subst h3; exact h.1
    · exact ih v h.2 h3

/-! ### Count / description-list length agreement (towards C9) -/

theorem goObj_len (t : ℚ) : ∀ (kvs : List (String × JVal)) (b : JVal) (path : String),
    (∀ k v, (k, v) ∈ kvs →
      ∀ bv p d l3, compare_json t v bv p = .ok (d, l3) → d = l3.length) →
    ∀ D L, goObj t kvs b path = .ok (D, L) → D = L.length := by
  intro kvs
  induction kvs with
  | nil =>
    intro b path _ D L h
    rw [goObj] at h
    injection h with h1
    injection h1 with h2 h3
    subst h2; subst h3
    rfl
  | cons kv rest ih =>
    intro b path hyp D L h
    obtain ⟨k, v⟩ := kv
    rw [goObj] at h
    cases hl : dictLookup b k with
    | error e => simp only [hl] at h; exact Except.noConfusion h
    | ok bv =>
      simp only [hl] at h
      cases hc : compare_json t v bv (extendPath path k) with
      | error e => simp only [hc] at h; exact Except.noConfusion h
      | ok p1 =>
        obtain ⟨c1, d1⟩ := p1
        simp only [hc] at h
        cases hr : goObj t rest b path with
        | error e => simp only [hr] at h; exact Except.noConfusion h
        | ok p2 =>
          obtain ⟨c2, d2⟩ := p2
          simp only [hr] at h
          injection h with h1
          injection h1 with h2 h3
          subst h2; subst h3
          have e1 : c1 = d1.length := hyp k v (List.mem_cons_self _ _) bv _ _ _ hc
          have e2 : c2 = d2.length :=
            ih b path (fun k' v' hm => hyp k' v' (List.mem_cons_of_mem _ hm)) _ _ hr
          simp [e1, e2]

theorem goPairs_len (t : ℚ) : ∀ (pairs : List (JVal × JVal)) (path : String) (idx : Nat),
    (∀ x y, (x, y) ∈ pairs →
      ∀ p d l3, compare_json t x y p = .ok (d, l3) → d = l3.length) →
    ∀ D L, goPairs t pairs path idx = .ok (D, L) → D = L.length := by
  intro pairs
  induction pairs with
  | nil =>
    intro path idx _ D L h
    rw [goPairs] at h
    injection h with h1
    injection h1 with h2 h3
    subst h2; subst h3
    rfl
  | cons xy rest ih =>
    intro path idx hyp D L h
    obtain ⟨x, y⟩ := xy
    rw [goPairs] at h
    cases hc : compare_json t x y (pathIdx path idx) with
    | error e => simp only [hc] at h; exact Except.noConfusion h
    | ok p1 =>
      obtain ⟨c1, d1⟩ := p1
      simp only [hc] at h
      cases hr : goPairs t rest path (idx + 1) with
      | error e => simp only [hr] at h; exact Except.noConfusion h
      | ok p2 =>
        obtain ⟨c2, d2⟩ := p2
        simp only [hr] at h
        injection h with h1
        injection h1 with h2 h3
        subst h2; subst h3
        have e1 : c1 = d1.length := hyp x y (List.mem_cons_self _ _) _ _ _ hc
        have e2 : c2 = d2.length :=
          ih path (idx + 1) (fun x' y' hm => hyp x' y' (List.mem_cons_of_mem _ hm)) _ _ hr
        simp [e1, e2]

theorem compare_json_scalar_eq (t : ℚ) (a b : JVal) (path : String) (h : isScalar a = true) :
    compare_json t a b path = scalarCase t a b path := by
  cases a <;> first | rfl | simp [isScalar] at h

theorem scalarCase_eq_if (t : ℚ) (a b : JVal) (path : String) :
    scalarCase t a b path =
      if ((fuzzyScore a b : ℚ)) < t then
        .ok (1, ["Value difference at " ++ path ++ ": '" ++ pyStr a ++ "' vs '" ++ pyStr b ++ "'"])
      else .ok (0, []) := by
  rw [scalarCase]
  simp only [fuzzy_match_eq_int]

theorem scalarCase_len (t : ℚ) (a b : JVal) (path : String) (d : Nat) (l3 : List String)
    (h : scalarCase t a b path = .ok (d, l3)) : d = l3.length := by
  rw [scalarCase_eq_if] at h
  split at h <;> (injection h with h1; injection h1 with h2 h3; subst h2; subst h3; rfl)

theorem compare_json_len (t : ℚ) : ∀ (a b : JVal) (path : String) (d : Nat) (l3 : List String),
    compare_json t a b path = .ok (d, l3) → d = l3.length := by
  suffices H : ∀ (n : Nat) (a b : JVal) (path : String) (d : Nat) (l3 : List String),
      sizeOf a ≤ n → compare_json t a b path = .ok (d, l3) → d = l3.length by
    intro a b path d l3 h
    exact H (sizeOf a) a b path d l3 (Nat.le_refl _) h
  intro n
  induction n with
  | zero =>
    intro a _ _ _ _ h
    exact absurd (Nat.lt_of_lt_of_le (JVal.sizeOf_pos a) h) (by simp)
  | succ n ih =>
    intro a b path d l3 hsz h
    match a with
    | .obj kvs =>
      refine goObj_len t kvs b path (fun k v hm bv p d' l' hc => ?_) d l3 h
      exact ih v bv p d' l'
        (Nat.le_of_lt_succ (Nat.lt_of_lt_of_le (sizeOf_lt_of_mem_kvs hm) hsz)) hc
    | .arr l =>
      rw [compare_json] at h
      cases he : elemsOf b with
      | error e => simp only [he] at h; exact Except.noConfusion h
      | ok bl =>
        simp only [he] at h
        rw [goArr_eq_goPairs] at h
        refine goPairs_len t (zipLongest l bl) path 0 (fun x y hm p d' l' hc => ?_) d l3 h
        exact ih x y p d' l'
          (Nat.le_of_lt_succ (Nat.lt_of_lt_of_le (sizeOf_fst_lt_of_mem_zipLongest hm) hsz)) hc
    | .str s => exact scalarCase_len t _ b path d l3 h
    | .num m => exact scalarCase_len t _ b path d l3 h
    | .bool c => exact scalarCase_len t _ b path d l3 h
    | .null => exact scalarCase_len t _ b path d l3 h
    | .absent => exact scalarCase_len t _ b path d l3 h

/-! ### Threshold monotonicity (towards C6) -/

theorem scalarCase_mono (t1 t2 : ℚ) (hle : t1 ≤ t2) (a b : JVal) (path : String)
    (d1 : Nat) (l1 : List String) (d2 : Nat) (l2 : List String)
    (h1 : scalarCase t1 a b path = .ok (d1, l1))
    (h2 : scalarCase t2 a b path = .ok (d2, l2)) : d1 ≤ d2 := by
  rw [scalarCase_eq_if] at h1 h2
  by_cases hc : ((fuzzyScore a b : ℚ)) < t1
  · rw [if_pos hc] at h1
    rw [if_pos (lt_of_lt_of_le hc hle)] at h2
    injection h1 with h1'
    injection h1' with e1 _
    injection h2 with h2'
    injection h2' with e2 _
    omega
  · rw [if_neg hc] at h1
    injection h1 with h1'
    injection h1' with e1 _
    omega

theorem goObj_mono (t1 t2 : ℚ) : ∀ (kvs : List (String × JVal)) (b : JVal) (path : String),
    (∀ k v, (k, v) ∈ kvs → ∀ bv p d1 l1 d2 l2,
      compare_json t1 v bv p = .ok (d1, l1) → compare_json t2 v bv p = .ok (d2, l2) →
      d1 ≤ d2) →
    ∀ D1 L1 D2 L2, goObj t1 kvs b path = .ok (D1, L1) → goObj t2 kvs b path = .ok (D2, L2) →
    D1 ≤ D2 := by
  intro kvs
  induction kvs with
  | nil =>
    intro b path _ D1 L1 D2 L2 h1 h2
    rw [goObj] at h1
    injection h1 with h1'
    injection h1' with e1 _
    omega
  | cons kv rest ih =>
    intro b path hyp D1 L1 D2 L2 h1 h2
    obtain ⟨k, v⟩ := kv
    rw [goObj] at h1 h2
    cases hl : dictLookup b k with
    | error e =>
      simp only [hl] at h1
      exact Except.noConfusion h1
    | ok bv =>
      simp only [hl] at h1 h2
      cases hc1 : compare_json t1 v bv (extendPath path k) with
      | error e => simp only [hc1] at h1; exact Except.noConfusion h1
      | ok p1 =>
        obtain ⟨c1, e1⟩ := p1
        simp only [hc1] at h1
        cases hc2 : compare_json t2 v bv (extendPath path k) with
        | error e => simp only [hc2] at h2; exact Except.noConfusion h2
        | ok p2 =>
          obtain ⟨c2, e2⟩ := p2
          simp only [hc2] at h2
          cases hr1 : goObj t1 rest b path with
          | error e => simp only [hr1] at h1; exact Except.noConfusion h1
          | ok q1 =>
            obtain ⟨C1, E1⟩ := q1
            simp only [hr1] at h1
            cases hr2 : goObj t2 rest b path with
            | error e => simp only [hr2] at h2; exact Except.noConfusion h2
            | ok q2 =>
              obtain ⟨C2, E2⟩ := q2
              simp only [hr2] at h2
              injection h1 with h1'
              injection h1' with f1 _
              injection h2 with h2'
              injection h2' with f2 _
              have g1 : c1 ≤ c2 :=
                hyp k v (List.mem_cons_self _ _) bv _ _ _ _ _ hc1 hc2
              have g2 : C1 ≤ C2 :=
                ih b path (fun k' v' hm => hyp k' v' (List.mem_cons_of_mem _ hm))
                  _ _ _ _ hr1 hr2
              omega

theorem goPairs_mono (t1 t2 : ℚ) : ∀ (pairs : List (JVal × JVal)) (path : String) (idx : Nat),
    (∀ x y, (x, y) ∈ pairs → ∀ p d1 l1 d2 l2,
      compare_json t1 x y p = .ok (d1, l1) → compare_json t2 x y p = .ok (d2, l2) →
      d1 ≤ d2) →
    ∀ D1 L1 D2 L2, goPairs t1 pairs path idx = .ok (D1, L1) →
    goPairs t2 pairs path idx = .ok (D2, L2) → D1 ≤ D2 := by
  intro pairs
  induction pairs with
  | nil =>
    intro path idx _ D1 L1 D2 L2 h1 h2
    rw [goPairs] at h1
    injection h1 with h1'
    injection h1' with e1 _
    omega
  | cons xy rest ih =>
    intro path idx hyp D1 L1 D2 L2 h1 h2
    obtain ⟨x, y⟩ := xy
    rw [goPairs] at h1 h2
    cases hc1 : compare_json t1 x y (pathIdx path idx) with
    | error e => simp only [hc1] at h1; exact Except.noConfusion h1
    | ok p1 =>
      obtain ⟨c1, e1⟩ := p1
      simp only [hc1] at h1
      cases hc2 : compare_json t2 x y (pathIdx path idx) with
      | error e => simp only [hc2] at h2; exact Except.noConfusion h2
      | ok p2 =>
        obtain ⟨c2, e2⟩ := p2
        simp only [hc2] at h2
        cases hr1 : goPairs t1 rest path (idx + 1) with
        | error e => simp only [hr1] at h1; exact Except.noConfusion h1
        | ok q1 =>
          obtain ⟨C1, E1⟩ := q1
          simp only [hr1] at h1
          cases hr2 : goPairs t2 rest path (idx + 1) with
          | error e => simp only [hr2] at h2; exact Except.noConfusion h2
          | ok q2 =>
            obtain ⟨C2, E2⟩ := q2
            simp only [hr2] at h2
            injection h1 with h1'
            injection h1' with f1 _
            injection h2 with h2'
            injection h2' with f2 _
            have g1 : c1 ≤ c2 :=
              hyp x y (List.mem_cons_self _ _) _ _ _ _ _ hc1 hc2
            have g2 : C1 ≤ C2 :=
              ih path (idx + 1) (fun x' y' hm => hyp x' y' (List.mem_cons_of_mem _ hm))
                _ _ _ _ hr1 hr2
            omega

theorem compare_json_mono (t1 t2 : ℚ) (hle : t1 ≤ t2) :
    ∀ (a b : JVal) (path : String) (d1 : Nat) (l1 : List String) (d2 : Nat) (l2 : List String),
    compare_json t1 a b path = .ok (d1, l1) → compare_json t2 a b path = .ok (d2, l2) →
    d1 ≤ d2 := by
  suffices H : ∀ (n : Nat) (a b : JVal) (path : String) d1 l1 d2 l2, sizeOf a ≤ n →
      compare_json t1 a b path = .ok (d1, l1) → compare_json t2 a b path = .ok (d2, l2) →
      d1 ≤ d2 by
    intro a b path d1 l1 d2 l2 h1 h2
    exact H (sizeOf a) a b path d1 l1 d2 l2 (Nat.le_refl _) h1 h2
  intro n
  induction n with
  | zero =>
    intro a _ _ _ _ _ _ h
    exact absurd (Nat.lt_of_lt_of_le (JVal.sizeOf_pos a) h) (by simp)
  | succ n ih =>
    intro a b path d1 l1 d2 l2 hsz h1 h2
    match a with
    | .obj kvs =>
      rw [compare_json] at h1 h2
      refine goObj_mono t1 t2 kvs b path (fun k v hm bv p d1' l1' d2' l2' hc1 hc2 => ?_)
        _ _ _ _ h1 h2
      exact ih v bv p d1' l1' d2' l2'
        (Nat.le_of_lt_succ (Nat.lt_of_lt_of_le (sizeOf_lt_of_mem_kvs hm) hsz)) hc1 hc2
    | .arr l =>
      rw [compare_json] at h1 h2
      cases he : elemsOf b with
      | error e => simp only [he] at h1; exact Except.noConfusion h1
      | ok bl =>
        simp only [he] at h1 h2
        rw [goArr_eq_goPairs] at h1 h2
        refine goPairs_mono t1 t2 (zipLongest l bl) path 0
          (fun x y hm p d1' l1' d2' l2' hc1 hc2 => ?_) _ _ _ _ h1 h2
        exact ih x y p d1' l1' d2' l2'
          (Nat.le_of_lt_succ (Nat.lt_of_lt_of_le (sizeOf_fst_lt_of_mem_zipLongest hm) hsz))
          hc1 hc2
    | .str s => exact scalarCase_mono t1 t2 hle _ b path _ _ _ _ h1 h2
    | .num m => exact scalarCase_mono t1 t2 hle _ b path _ _ _ _ h1 h2
    | .bool c => exact scalarCase_mono t1 t2 hle _ b path _ _ _ _ h1 h2
    | .null => exact scalarCase_mono t1 t2 hle _ b path _ _ _ _ h1 h2
    | .absent => exact scalarCase_mono t1 t2 hle _ b path _ _ _ _ h1 h2

/-! ### Reflexivity (towards C7) -/

theorem scalarCase_self (t : ℚ) (hle : t ≤ 100) (a : JVal) (path : String) :
    scalarCase t a a path = .ok (0, []) := by
  rw [scalarCase_eq_if, fuzzyScore_self]
  rw [if_neg]
  rw [show (((100 : Nat) : ℚ)) = (100 : ℚ) by norm_num]
  exact not_lt.mpr hle

theorem goObj_self (t : ℚ) : ∀ (kvs : List (String × JVal)) (b : JVal) (path : String),
    (∀ k v, (k, v) ∈ kvs → dictLookup b k = .ok v) →
    (∀ k v, (k, v) ∈ kvs → ∀ p, compare_json t v v p = .ok (0, [])) →
    goObj t kvs b path = .ok (0, []) := by
  intro kvs
  induction kvs with
  | nil => intro b path _ _; rfl
  | cons kv rest ih =>
    intro b path hlook hcmp
    obtain ⟨k, v⟩ := kv
    rw [goObj]
    simp only [hlook k v (List.mem_cons_self _ _),
      hcmp k v (List.mem_cons_self _ _) (extendPath path k),
      ih b path (fun k' v' hm => hlook k' v' (List.mem_cons_of_mem _ hm))
        (fun k' v' hm => hcmp k' v' (List.mem_cons_of_mem _ hm))]
    rfl

theorem goPairs_self (t : ℚ) : ∀ (pairs : List (JVal × JVal)) (path : String) (idx : Nat),
    (∀ x y, (x, y) ∈ pairs → ∀ p, compare_json t x y p = .ok (0, [])) →
    goPairs t pairs path idx = .ok (0, []) := by
  intro pairs
  induction pairs with
  | nil => intro path idx _; rfl
  | cons xy rest ih =>
    intro path idx hcmp
    obtain ⟨x, y⟩ := xy
    rw [goPairs]
    simp only [hcmp x y (List.mem_cons_self _ _) (pathIdx path idx),
      ih path (idx + 1) (fun x' y' hm => hcmp x' y' (List.mem_cons_of_mem _ hm))]
    rfl

theorem compare_json_self (t : ℚ) (hle : t ≤ 100) :
    ∀ (a : JVal) (path : String), wfDoc a = true → compare_json t a a path = .ok (0, []) := by
  suffices H : ∀ (n : Nat) (a : JVal) (path : String), sizeOf a ≤ n → wfDoc a = true →
      compare_json t a a path = .ok (0, []) by
    intro a path hwf
    exact H (sizeOf a) a path (Nat.le_refl _) hwf
  intro n
  induction n with
  | zero =>
    intro a _ h _
    exact absurd (Nat.lt_of_lt_of_le (JVal.sizeOf_pos a) h) (by simp)
  | succ n ih =>
    intro a path hsz hwf
    match a with
    | .obj kvs =>
      rw [compare_json]
      rw [wfDoc] at hwf
      refine goObj_self t kvs (.obj kvs) path (fun k v hm => ?_) (fun k v hm p => ?_)
      · rw [dictLookup, lookupKvs_of_wf kvs k v hwf hm]
      · exact ih v p
          (Nat.le_of_lt_succ (Nat.lt_of_lt_of_le (sizeOf_lt_of_mem_kvs hm) hsz))
          (wfKvs_mem_wfDoc kvs k v hwf hm)
    | .arr l =>
      rw [compare_json]
      rw [wfDoc] at hwf
      show goArr t l l path 0 = .ok (0, [])
      rw [goArr_eq_goPairs, zipLongest_self]
      refine goPairs_self t _ path 0 (fun x y hm p => ?_)
      rw [List.mem_map] at hm
      obtain ⟨z, hz, he⟩ := hm
      injection he with he1 he2
      subst he1
      subst he2
      exact ih z p
        (Nat.le_of_lt_succ (Nat.lt_of_lt_of_le (sizeOf_lt_of_mem_arr hz) hsz))
        (wfArr_mem_wfDoc l z hwf hz)
    | .str s => exact scalarCase_self t hle _ path
    | .num m => exact scalarCase_self t hle _ path
    | .bool c => exact scalarCase_self t hle _ path
    | .null => exact scalarCase_self t hle _ path
    | .absent => exact scalarCase_self t hle _ path

/-! ### The difference count against the first document's scalar tally
(towards C5) -/

theorem scalarCase_bound (t : ℚ) (a b : JVal) (path : String) (d : Nat) (l3 : List String)
    (h : scalarCase t a b path = .ok (d, l3)) : d ≤ 1 := by
  rw [scalarCase_eq_if] at h
  split at h <;> (injection h with h1; injection h1 with h2 _; omega)

theorem goObj_bound (t : ℚ) : ∀ (kvs : List (String × JVal)) (b : JVal) (path : String),
    (∀ k v bv, (k, v) ∈ kvs → dictLookup b k = .ok bv →
      ∀ p d l3, compare_json t v bv p = .ok (d, l3) → d ≤ count_values v) →
    ∀ D L, goObj t kvs b path = .ok (D, L) →
    D ≤ (kvs.map (fun kv => count_values kv.2)).sum := by
  intro kvs
  induction kvs with
  | nil =>
    intro b path _ D L h
    rw [goObj] at h
    injection h with h1
    injection h1 with h2 _
    omega
  | cons kv rest ih =>
    intro b path hyp D L h
    obtain ⟨k, v⟩ := kv
    rw [goObj] at h
    cases hl : dictLookup b k with
    | error e => simp only [hl] at h; exact Except.noConfusion h
    | ok bv =>
      simp only [hl] at h
      cases hc : compare_json t v bv (extendPath path k) with
      | error e => simp only [hc] at h; exact Except.noConfusion h
      | ok p1 =>
        obtain ⟨c1, d1⟩ := p1
        simp only [hc] at h
        cases hr : goObj t rest b path with
        | error e => simp only [hr] at h; exact Except.noConfusion h
        | ok p2 =>
          obtain ⟨c2, d2⟩ := p2
          simp only [hr] at h
          injection h with h1
          injection h1 with h2 _
          have g1 : c1 ≤ count_values v := hyp k v bv (List.mem_cons_self _ _) hl _ _ _ hc
          have g2 : c2 ≤ (rest.map (fun kv => count_values kv.2)).sum :=
            ih b path (fun k' v' bv' hm => hyp k' v' bv' (List.mem_cons_of_mem _ hm)) _ _ hr
          rw [List.map_cons, List.sum_cons]
          dsimp only
          omega

theorem goPairs_bound (t : ℚ) : ∀ (pairs : List (JVal × JVal)) (path : String) (idx : Nat),
    (∀ x y, (x, y) ∈ pairs →
      ∀ p d l3, compare_json t x y p = .ok (d, l3) → d ≤ count_values x) →
    ∀ D L, goPairs t pairs path idx = .ok (D, L) →
    D ≤ ((pairs.map Prod.fst).map count_values).sum := by
  intro pairs
  induction pairs with
  | nil =>
    intro path idx _ D L h
    rw [goPairs] at h
    injection h with h1
    injection h1 with h2 _
    omega
  | cons xy rest ih =>
    intro path idx hyp D L h
    obtain ⟨x, y⟩ := xy
    rw [goPairs] at h
    cases hc : compare_json t x y (pathIdx path idx) with
    | error e => simp only [hc] at h; exact Except.noConfusion h
    | ok p1 =>
      obtain ⟨c1, d1⟩ := p1
      simp only [hc] at h
      cases hr : goPairs t rest path (idx + 1) with
      | error e => simp only [hr] at h; exact Except.noConfusion h
      | ok p2 =>
        obtain ⟨c2, d2⟩ := p2
        simp only [hr] at h
        injection h with h1
        injection h1 with h2 _
        have g1 : c1 ≤ count_values x := hyp x y (List.mem_cons_self _ _) _ _ _ hc
        have g2 : c2 ≤ ((rest.map Prod.fst).map count_values).sum :=
          ih path (idx + 1) (fun x' y' hm => hyp x' y' (List.mem_cons_of_mem _ hm)) _ _ hr
        rw [List.map_cons, List.map_cons, List.sum_cons]
        dsimp only
        omega

theorem compare_json_bound (t : ℚ) : ∀ (a b : JVal), Covers a b →
    ∀ (path : String) (d : Nat) (l3 : List String),
    compare_json t a b path = .ok (d, l3) → d ≤ count_values a := by
  intro a b hcov
  induction hcov with
  | str s b =>
    intro path d l3 h
    exact scalarCase_bound t _ b path d l3 h
  | num m b =>
    intro path d l3 h
    exact scalarCase_bound t _ b path d l3 h
  | bool c b =>
    intro path d l3 h
    exact scalarCase_bound t _ b path d l3 h
  | null b =>
    intro path d l3 h
    exact scalarCase_bound t _ b path d l3 h
  | obj kvs b hmem ih =>
    intro path d l3 h
    rw [compare_json] at h
    rw [count_values_obj]
    exact goObj_bound t kvs b path
      (fun k v bv hm hl p d' l3' hc => ih k v bv hm hl p d' l3' hc) _ _ h
  | arrFault l b e hfault =>
    intro path d l3 h
    rw [compare_json] at h
    simp only [hfault] at h
    exact Except.noConfusion h
  | arr l b bl helems hlen hcov2 ih =>
    intro path d l3 h
    rw [compare_json] at h
    simp only [helems] at h
    rw [goArr_eq_goPairs] at h
    have hb := goPairs_bound t (zipLongest l bl) path 0
      (fun x y hm p d' l3' hc => ih x y hm p d' l3' hc) _ _ h
    rw [zipLongest_fst_of_le l bl hlen] at hb
    rw [count_values_arr]
    exact hb

/-! ### The dict and list loops as monadic folds (towards C2 and C3) -/

theorem goObj_eq_mapM (t : ℚ) : ∀ (kvs : List (String × JVal)) (b : JVal) (path : String),
    goObj t kvs b path =
      (kvs.mapM (fun kv => (dictLookup b kv.1).bind
          (fun bv => compare_json t kv.2 bv (extendPath path kv.1)))).map
        (fun rs => ((rs.map Prod.fst).sum, (rs.map Prod.snd).flatten)) := by
  intro kvs
  induction kvs with
  | nil =>
    intro b path
    rw [List.mapM_nil]
    rfl
  | cons kv rest ih =>
    intro b path
    obtain ⟨k, v⟩ := kv
    rw [goObj, List.mapM_cons]
    cases hl : dictLookup b k with
    | error e =>
      simp [hl, Except.map, Except.bind, Bind.bind, pure, Except.pure]
    | ok bv =>
      simp only [hl]
      cases hc : compare_json t v bv (extendPath path k) with
      | error e =>
        simp [hc, Except.map, Except.bind, Bind.bind, pure, Except.pure]
      | ok p1 =>
        obtain ⟨c1, d1⟩ := p1
        simp only [hc]
        cases hm : rest.mapM (fun kv => (dictLookup b kv.1).bind
            (fun bv => compare_json t kv.2 bv (extendPath path kv.1))) with
        | error e =>
          rw [ih b path, hm]
          simp [hc, Except.map, Except.bind, Bind.bind, pure, Except.pure]
        | ok rs =>
          rw [ih b path, hm]
          simp [hc, Except.map, Except.bind, Bind.bind, pure, Except.pure]

theorem goPairs_eq_mapM (t : ℚ) : ∀ (pairs : List (JVal × JVal)) (path : String) (idx : Nat),
    goPairs t pairs path idx =
      ((pairs.enumFrom idx).mapM
          (fun ip => compare_json t ip.2.1 ip.2.2 (pathIdx path ip.1))).map
        (fun rs => ((rs.map Prod.fst).sum, (rs.map Prod.snd).flatten)) := by
  intro pairs
  induction pairs with
  | nil =>
    intro path idx
    rw [show List.enumFrom idx ([] : List (JVal × JVal)) = [] from rfl, List.mapM_nil]
    rfl
  | cons xy rest ih =>
    intro path idx
    obtain ⟨x, y⟩ := xy
    rw [goPairs, List.enumFrom_cons, List.mapM_cons]
    cases hc : compare_json t x y (pathIdx path idx) with
    | error e =>
      simp [hc, Except.map, Except.bind, Bind.bind, pure, Except.pure]
    | ok p1 =>
      obtain ⟨c1, d1⟩ := p1
      cases hm : (rest.enumFrom (idx + 1)).mapM
          (fun ip => compare_json t ip.2.1 ip.2.2 (pathIdx path ip.1)) with
      | error e =>
        rw [ih path (idx + 1), hm]
        simp [hc, Except.map, Except.bind, Bind.bind, pure, Except.pure]
      | ok rs =>
        rw [ih path (idx + 1), hm]
        simp [hc, Except.map, Except.bind, Bind.bind, pure, Except.pure]

/-! ### The claims -/

/-- Claim C1: at every scalar (non-object, non-array) first operand,
`compare_json` returns exactly `(1, [the single "Value difference at
{path}: '{a}' vs '{b}'" description])` when the matcher score is strictly
below the threshold, and `(0, [])` when the score is at least the
threshold. -/
theorem claim_C1 (t : ℚ) (a b : JVal) (path : String) (h : isScalar a = true) :
    compare_json t a b path =
      if ((fuzzyScore a b : ℚ)) < t then
        .ok (1, ["Value difference at " ++ path ++ ": '" ++ pyStr a ++ "' vs '" ++ pyStr b ++ "'"])
      else .ok (0, []) := by
  rw [compare_json_scalar_eq t a b path h, scalarCase_eq_if]

theorem claim_C1_witness :
    isScalar (JVal.str "Hello") = true ∧
    compare_json 90 (JVal.str "Hello") (JVal.str "World") "x" =
      .ok (1, ["Value difference at x: 'Hello' vs 'World'"]) := by
  refine ⟨rfl, ?_⟩
  rw [claim_C1 90 (JVal.str "Hello") (JVal.str "World") "x" rfl]
  rfl

/-- Claim C2: when the first operand is an object, `compare_json` iterates
exactly the key/value entries of the first object (not the union of both
key sets), looks each key up in the second operand, recurses on the pair
with the path extended by the dotted key, and sums child counts while
concatenating child description lists (errors propagating). -/
theorem claim_C2 (t : ℚ) (kvs : List (String × JVal)) (b : JVal) (path : String) :
    compare_json t (.obj kvs) b path =
      (kvs.mapM (fun kv => (dictLookup b kv.1).bind
          (fun bv => compare_json t kv.2 bv (extendPath path kv.1)))).map
        (fun rs => ((rs.map Prod.fst).sum, (rs.map Prod.snd).flatten)) := by
  rw [compare_json]
  exact goObj_eq_mapM t kvs b path

/-- Claim C3: when both operands are arrays, `compare_json` pairs elements
positionally up to the longer of the two lengths, the `absent` placeholder
standing in for positions beyond the shorter array (second conjunct), and
recurses on each indexed pair with the path extended by the bracketed
index, summing counts and concatenating description lists (first
conjunct). -/
theorem claim_C3 (t : ℚ) (l bl : List JVal) (path : String) :
    compare_json t (.arr l) (.arr bl) path =
      (((zipLongest l bl).enumFrom 0).mapM
          (fun ip => compare_json t ip.2.1 ip.2.2 (pathIdx path ip.1))).map
        (fun rs => ((rs.map Prod.fst).sum, (rs.map Prod.snd).flatten)) ∧
    zipLongest l bl = (List.range (max l.length bl.length)).map
      (fun i => (l.getD i .absent, bl.getD i .absent)) := by
  constructor
  · rw [compare_json]
    simp only [elemsOf]
    rw [goArr_eq_goPairs, goPairs_eq_mapM]
  · exact zipLongest_eq_range_map l bl

/-- Claim C4: `get_comparison` tallies the first document's scalar leaves
(strings + numbers + booleans + nulls, `array_members` excluded — that is
`count_values`), runs the comparison, and when the total is positive
returns `(total - diff) / total * 100` formatted to two decimal places
with the `"% similar"` marker together with the difference list; when the
total is zero it returns the degenerate no-comparable-values message
instead of dividing by zero. -/
theorem claim_C4 (t : ℚ) (a b : JVal) (d : Nat) (diffs : List String)
    (h : compare_json t a b "" = .ok (d, diffs)) :
    get_comparison t a b =
      if 0 < count_values a then
        .pair (format2f (((count_values a : ℚ) - (d : ℚ)) / (count_values a : ℚ) * 100)
          ++ "% similar") diffs
      else .msg "The files do not contain keys to compare." := by
  rw [get_comparison]
  simp only [h]
  by_cases hp : 0 < count_values a
  · rw [if_pos hp, if_pos hp, similarityLine_eq_format2f _ _ hp]
    congr 3
    push_cast
    ring
  · rw [if_neg hp, if_neg hp]

theorem claim_C4_witness :
    get_comparison 90 (JVal.obj [("x", JVal.str "Hello")]) (JVal.obj [("x", JVal.str "hello")]) =
      .pair (format2f (((1 : ℚ) - 0) / 1 * 100) ++ "% similar") [] ∧
    get_comparison 90 (JVal.obj [("x", JVal.str "Hello")]) (JVal.obj [("x", JVal.str "hello")]) =
      .pair "100.00% similar" [] := by
  constructor
  · rw [claim_C4 90 (JVal.obj [("x", JVal.str "Hello")]) (JVal.obj [("x", JVal.str "hello")])
      0 [] rfl]
    rfl
  · rfl

/-- Claim C5 fails on the code as stated: when the second document's array
is longer than the first's, the `object()` placeholder is compared on the
first side and counted as a difference, while the first document's scalar
tally is smaller.  Concretely, comparing `[]` against `[1]` at threshold
90 reports one difference although the first document has zero scalar
leaves. -/
theorem claim_C5_counterexample :
    compare_json 90 (JVal.arr []) (JVal.arr [JVal.num 1]) "" =
      .ok (1, ["Value difference at [0]: '<object object>' vs '1'"]) ∧
    count_values (JVal.arr []) = 0 :=
  ⟨rfl, rfl⟩

/-- Claim C5 (amended): on every pair on which the comparison completes
and never substitutes the `absent` placeholder on the first side (the
first document contains no `absent` and no array reached in the second
document is longer than its counterpart in the first — the `Covers`
relation), the difference count never exceeds the scalar tally of the
first document. -/
theorem claim_C5 (t : ℚ) (a b : JVal) (hcov : Covers a b) (path : String) (d : Nat)
    (l3 : List String) (h : compare_json t a b path = .ok (d, l3)) : d ≤ count_values a :=
  compare_json_bound t a b hcov path d l3 h

theorem claim_C5_witness : (1 : Nat) ≤ count_values (JVal.obj [("x", JVal.num 1)]) := by
  refine claim_C5 90 (JVal.obj [("x", JVal.num 1)]) (JVal.obj [("x", JVal.num 2)]) ?_ ""
    1 ["Value difference at x: '1' vs '2'"] rfl
  refine Covers.obj _ _ (fun k v bv hm hl => ?_)
  rw [List.mem_singleton] at hm
  injection hm with h1 h2
  subst h2
  exact Covers.num 1 bv

/-- Claim C6: raising the threshold never decreases the difference count
reported by `compare_json` on a fixed pair of documents. -/
theorem claim_C6 (t1 t2 : ℚ) (hle : t1 ≤ t2) (a b : JVal) (path : String)
    (d1 d2 : Nat) (l1 l2 : List String)
    (h1 : compare_json t1 a b path = .ok (d1, l1))
    (h2 : compare_json t2 a b path = .ok (d2, l2)) : d1 ≤ d2 :=
  compare_json_mono t1 t2 hle a b path d1 l1 d2 l2 h1 h2

theorem claim_C6_witness : (0 : Nat) ≤ 1 :=
  claim_C6 10 90 (by decide) (JVal.str "ab") (JVal.str "ad") "" 0 1 []
    ["Value difference at : 'ab' vs 'ad'"] rfl rfl

/-- Claim C7: for every document (association lists with Python-dict-like
unique keys, no floats being modelled so no NaN can occur) and every
threshold at most 100, comparing the document with itself yields
difference count 0 and an empty description list. -/
theorem claim_C7 (t : ℚ) (hle : t ≤ 100) (a : JVal) (hwf : wfDoc a = true) (path : String) :
    compare_json t a a path = .ok (0, []) :=
  compare_json_self t hle a path hwf

theorem claim_C7_witness :
    compare_json 100 (JVal.obj [("x", JVal.num 1), ("y", JVal.arr [JVal.str "A", JVal.null])])
      (JVal.obj [("x", JVal.num 1), ("y", JVal.arr [JVal.str "A", JVal.null])]) "" =
      .ok (0, []) :=
  claim_C7 100 (by decide)
    (JVal.obj [("x", JVal.num 1), ("y", JVal.arr [JVal.str "A", JVal.null])]) rfl ""

/-- Claim C8: the matcher never fails: its `try/except` converts any
failure of the underlying ratio computation into the failure's text,
returned as an ordinary value in place of the score, instead of letting
the exception escape (the return type `PyVal` carries no exception at
all). -/
theorem claim_C8 (f : String → String → Except String Nat) (v1 v2 : JVal) (e : String)
    (h : f (strLower (pyStr v1)) (strLower (pyStr v2)) = .error e) :
    fuzzyMatchWith f v1 v2 = .pstr e := by
  rw [fuzzyMatchWith, h]

theorem claim_C8_witness :
    fuzzyMatchWith (fun _ _ => .error "computation failed") (JVal.num 1) (JVal.num 2) =
      .pstr "computation failed" :=
  claim_C8 (fun _ _ => .error "computation failed") (JVal.num 1) (JVal.num 2)
    "computation failed" rfl

/-- Claim C9: every call of `compare_json` that completes returns a
difference count exactly equal to the length of the difference-description
list it returns. -/
theorem claim_C9 (t : ℚ) (a b : JVal) (path : String) (d : Nat) (l3 : List String)
    (h : compare_json t a b path = .ok (d, l3)) : d = l3.length :=
  compare_json_len t a b path d l3 h

theorem claim_C9_witness :
    (2 : Nat) = ["Value difference at [0]: '1' vs '9'",
      "Value difference at [1]: '2' vs '8'"].length :=
  claim_C9 90 (JVal.arr [JVal.num 1, JVal.num 2]) (JVal.arr [JVal.num 9, JVal.num 8]) "" 2
    ["Value difference at [0]: '1' vs '9'", "Value difference at [1]: '2' vs '8'"] rfl

/-- Claim C10: `get_comparison` never lets an exception escape: any
exception raised during the comparison (for example the `KeyError` of a
key present in the first document but absent from the second) is caught
and its text `str(e)` is returned as a bare message in place of the
`(percentage, differences)` pair. -/
theorem claim_C10 (t : ℚ) (a b : JVal) (e : PyErr)
    (h : compare_json t a b "" = .error e) : get_comparison t a b = .msg (PyErr.str e) := by
  rw [get_comparison]
  simp only [h]

theorem claim_C10_witness :
    get_comparison 90 (JVal.obj [("x", JVal.num 1)]) (JVal.obj []) = .msg "'x'" :=
  claim_C10 90 (JVal.obj [("x", JVal.num 1)]) (JVal.obj []) (.keyError "x") rfl
